import Mathlib

/-!
Verification of the client-side autosave/sync engine of the monthly tire
inspection sheet application (file `firebase/firebase-cloud-sync.js`).

The development shallowly embeds the engine: JavaScript strings become Lean
`String` (UTF-16 code units of the identifiers involved are all in the BMP,
where `Char.toNat` agrees with `charCodeAt`), 32-bit integer arithmetic is
`Nat` arithmetic taken modulo `2 ^ 32`, fallible operations return
`Except String`, and the event-driven flush loop becomes an explicit machine
whose suspension points (awaits) are steps.
-/

namespace CloudSync

/-- Whitespace characters removed by the JavaScript `String.prototype.trim`
(the ASCII whitespace range, space, NBSP, BOM and the two line separators
cover every character this application can feed to `trim`). -/
def isJsWhitespace (c : Char) : Bool :=
  c.toNat = 32 || c.toNat = 9 || c.toNat = 10 || c.toNat = 13 || c.toNat = 11
    || c.toNat = 12 || c.toNat = 160 || c.toNat = 0x2028 || c.toNat = 0x2029
    || c.toNat = 0xfeff

/-- Embedding of `String(value).trim()`: strip leading and trailing
whitespace. -/
def jsTrim (s : String) : String :=
  String.mk (((s.data.dropWhile isJsWhitespace).reverse.dropWhile
    isJsWhitespace).reverse)

/-- Characters of the allowed identifier class in `sanitizeId`
(`a-zA-Z0-9_-`, the complement of the replaced regular-expression class). -/
def isIdChar (c : Char) : Bool :=
  ((97 ≤ c.toNat && c.toNat ≤ 122) || (65 ≤ c.toNat && c.toNat ≤ 90)
    || (48 ≤ c.toNat && c.toNat ≤ 57) || c.toNat = 95 || c.toNat = 45)

/-- The `\d` character class of the date pattern (ASCII digits). -/
def isDigitCh (c : Char) : Bool :=
  48 ≤ c.toNat && c.toNat ≤ 57

/-- A lowercase hexadecimal digit character (the alphabet of the rendered
basic signature). -/
def isHexLowerChar (c : Char) : Bool :=
  (48 ≤ c.toNat && c.toNat ≤ 57) || (97 ≤ c.toNat && c.toNat ≤ 102)

/-- Embedding of `sanitizeId(value, fallback)` from the source: trim, replace
every character outside the allowed class with an underscore, fall back when
the result is empty, and cap at 120 characters (`slice(0, 120)`). -/
def sanitizeId (value fallbackId : String) : String :=
  let text := jsTrim value
  let safe := String.mk (text.data.map (fun c => if isIdChar c then c else '_'))
  if safe.data = [] then fallbackId else String.mk (safe.data.take 120)

/-- Lowercase hexadecimal digit for a nibble, as produced by
`Number.prototype.toString(16)`. -/
def hexChar (n : Nat) : Char :=
  if n < 10 then Char.ofNat (48 + n) else Char.ofNat (87 + n)

/-- Digits of `n` in base 16, most significant first, empty for `0`
(helper for the `toString(16)` embedding). -/
def hexDigits (n : Nat) : List Char :=
  if h : n = 0 then []
  else hexDigits (n / 16) ++ [hexChar (n % 16)]
decreasing_by exact Nat.div_lt_self (Nat.pos_of_ne_zero h) (by decide)

/-- Embedding of `n.toString(16)` for a natural number: `"0"` for zero,
otherwise the base-16 digits. -/
def jsHexString (n : Nat) : List Char :=
  if n = 0 then ['0'] else hexDigits n

/-- Embedding of `.padStart(8, "0")` on a digit list. -/
def padStart8 (l : List Char) : List Char :=
  List.replicate (8 - l.length) '0' ++ l

/-- One step of the FNV-1a loop: xor the code unit in, multiply by the FNV
multiplier 16777619, modulo `2 ^ 32` (the JavaScript loop keeps the value in
32 bits via `Math.imul` and the final `>>> 0`). -/
def fnvStep (h c : Nat) : Nat :=
  ((h ^^^ c) * 16777619) % 4294967296

/-- The FNV-1a 32-bit hash of the code units of `s`, seeded with
2166136261, as computed by the loop in `hashText`. -/
def fnv (s : String) : Nat :=
  s.data.foldl (fun h c => fnvStep h c.toNat) 2166136261

/-- Embedding of `hashText(value)`: FNV-1a 32-bit hash rendered as
`toString(16).padStart(8, "0")`. -/
def hashText (s : String) : String :=
  String.mk (padStart8 (jsHexString (fnv s)))

/-- The four basic-info fields extracted from `payload.current`; in the
source each may be absent (`undefined`), which `String(value ?? "")` turns
into the empty string. -/
structure CurrentFields where
  inspectionDate : Option String
  driverName : Option String
  vehicleNumber : Option String
  truckType : Option String
deriving DecidableEq

/-- The payload supplied by the caller. The engine only inspects
`payload.current`; every other field is opaque data, modelled by the
`otherData` association list. -/
structure Payload where
  current : Option CurrentFields
  otherData : List (String × String)
deriving DecidableEq

/-- A queued save entry as built by `saveNowDetailed`: cause tag, ISO
timestamp, and the (cloned) payload. -/
structure SaveEntry where
  source : String
  clientUpdatedAt : String
  payload : Payload
deriving DecidableEq

/-- The record returned by `extractBasicInfo`. -/
structure BasicInfo where
  inspectionDate : String
  driverName : String
  vehicleNumber : String
  truckType : String
deriving DecidableEq

/-- The recognized sync options (defaults merged in `init`). The field
`docPre` models the source option `documentPrefix`. -/
structure SyncOptions where
  enabled : Bool
  collection : String
  docPre : String
  companyCode : String
  useAnonymousAuth : Bool
  autoFlushIntervalMs : Nat
deriving DecidableEq

/-- Embedding of `normalizeText(value)`: `String(value ?? "").trim()` on a
possibly absent string field. -/
def normalizeText (v : Option String) : String :=
  jsTrim (v.getD "")

/-- Embedding of `parseMonthFromDateText`: match the trimmed text against
the anchored pattern of four digits, dash, two digits, dash, two digits, and
return the year-month part, the empty string otherwise. -/
def parseMonthFromDateText (value : String) : String :=
  match (jsTrim value).data with
  | [y1, y2, y3, y4, '-', m1, m2, '-', d1, d2] =>
      if isDigitCh y1 && isDigitCh y2 && isDigitCh y3 && isDigitCh y4
          && isDigitCh m1 && isDigitCh m2 && isDigitCh d1 && isDigitCh d2 then
        String.mk [y1, y2, y3, y4, '-', m1, m2]
      else ""
  | _ => ""

/-- The guarded access `entry && entry.payload && entry.payload.current &&
entry.payload.current.inspectionDate` (absent levels give the empty
string after the `value || ""` coercion inside `parseMonthFromDateText`). -/
def rawInspectionDate (e : SaveEntry) : String :=
  match e.payload.current with
  | some c => c.inspectionDate.getD ""
  | none => ""

/-- Embedding of `extractInspectionMonth(entry)`: the parsed month of the
inspection date, falling back to the current calendar month `nowMonth`
(the value `currentMonthKey()` returns at resolution time). -/
def extractInspectionMonth (nowMonth : String) (e : SaveEntry) : String :=
  let m := parseMonthFromDateText (rawInspectionDate e)
  if m = "" then nowMonth else m

/-- Embedding of `extractBasicInfo(entry)`: the four normalized text fields
of `payload.current` (an absent `current` behaves as the empty object). -/
def extractBasicInfo (e : SaveEntry) : BasicInfo :=
  match e.payload.current with
  | some c =>
      { inspectionDate := normalizeText c.inspectionDate
        driverName := normalizeText c.driverName
        vehicleNumber := normalizeText c.vehicleNumber
        truckType := normalizeText c.truckType }
  | none =>
      { inspectionDate := "", driverName := "", vehicleNumber := ""
        truckType := "" }

/-- Embedding of `buildBasicSignature(entry)`: hash of the pipe-joined
month key and the three identity text fields. -/
def buildBasicSignature (nowMonth : String) (e : SaveEntry) : String :=
  let basic := extractBasicInfo e
  let inspectionMonth := extractInspectionMonth nowMonth e
  hashText (String.intercalate "|"
    [inspectionMonth, basic.driverName, basic.vehicleNumber, basic.truckType])

/-- Embedding of `buildDocId(monthKey, basicSignature)`: sanitize the four
components (document prefix option, company code option, month key,
signature) with their fallbacks, join them with underscores and cap the
whole id at 200 characters (`slice(0, 200)`). -/
def buildDocId (opts : SyncOptions) (nowMonth monthKey basicSignature : String) :
    String :=
  let pre := sanitizeId opts.docPre "monthly_tire"
  let company := sanitizeId opts.companyCode "company"
  let month := sanitizeId monthKey nowMonth
  let basic := sanitizeId basicSignature "basic"
  String.mk ((pre ++ "_" ++ company ++ "_" ++ month ++ "_" ++ basic).data.take 200)

/-- The record returned by `getDocInfoForEntry`. -/
structure DocInfo where
  month : String
  uid : String
  deviceId : String
  basicInfo : BasicInfo
  basicSignature : String
  docId : String
deriving DecidableEq

/-- Embedding of `getDocInfoForEntry(entry)`. The resolved user id and
device id of the module state are passed explicitly (they are metadata and
take no part in the document identity). -/
def getDocInfoForEntry (opts : SyncOptions) (uid deviceId nowMonth : String)
    (e : SaveEntry) : DocInfo :=
  let month := extractInspectionMonth nowMonth e
  let basicInfo := extractBasicInfo e
  let basicSignature := buildBasicSignature nowMonth e
  { month := month, uid := uid, deviceId := deviceId, basicInfo := basicInfo
    basicSignature := basicSignature
    docId := buildDocId opts nowMonth month basicSignature }

/-- The pending-queue bound `MAX_PENDING` of the source. -/
def MAX_PENDING : Nat := 200

/-- Embedding of `setPendingQueue(rows)` restricted to the array case:
the stored queue becomes `rows.slice(0, MAX_PENDING)` (serialization to
local storage is the identity on the queue value). -/
def setPendingQueue (rows : List SaveEntry) : List SaveEntry :=
  rows.take MAX_PENDING

/-- Embedding of `pushPending(entry)` as a function of the queue read from
storage: append at the back, splice the overflow off the front, store. -/
def pushPending (queue : List SaveEntry) (entry : SaveEntry) : List SaveEntry :=
  let q := queue ++ [entry]
  let q2 := if MAX_PENDING < q.length then q.drop (q.length - MAX_PENDING) else q
  setPendingQueue q2

/-- Control point of an in-flight `flushPending` run: `idle` when no run is
active, `awaitingReady` after the busy flag has been taken and the
`ensureFirebaseReady` await is pending, `looping` while iterating the
snapshot of the queue (`toDo` still to attempt, `remain` kept so far). -/
inductive FlushPhase where
  | idle
  | awaitingReady
  | looping (toDo : List SaveEntry) (remain : List SaveEntry)
deriving DecidableEq

/-- The module state that `flushPending` touches: the stored pending queue,
the `state.flushing` busy flag, and the control point of the active run. -/
structure FlushMachine where
  stored : List SaveEntry
  flushing : Bool
  phase : FlushPhase
deriving DecidableEq

/-- Events of the cooperative scheduler relevant to `flushPending`:
`call` is an invocation of `flushPending` (possibly re-entrant), `resume`
is the `ensureFirebaseReady` await resolving (with its outcome, a thrown
error or a readiness Boolean), `step` is one loop iteration completing
(with the success of that upsert attempt). -/
inductive FlushEvent where
  | call
  | resume (outcome : Except String Bool)
  | step (ok : Bool)

/-- Small-step embedding of `flushPending`. Each event maps the machine
state to the next state together with the list of entries attempted during
that step. A `call` on a busy machine returns immediately (the guard
`if (state.flushing) return`); a `resume` carrying a thrown error or a
non-ready outcome clears the flag (the `finally` block) and ends the run;
an empty queue ends the run; a `step` processes the next snapshot entry,
pushing it onto `remain` on failure, and on the last entry stores the
remaining queue via `setPendingQueue` and clears the flag. -/
def execEvent (s : FlushMachine) : FlushEvent → FlushMachine × List SaveEntry
  | .call =>
      match s.flushing with
      | true => (s, [])
      | false => ({ s with flushing := true, phase := .awaitingReady }, [])
  | .resume outcome =>
      match s.phase with
      | .awaitingReady =>
          match outcome with
          | .error _ => ({ s with flushing := false, phase := .idle }, [])
          | .ok false => ({ s with flushing := false, phase := .idle }, [])
          | .ok true =>
              match s.stored with
              | [] => ({ s with flushing := false, phase := .idle }, [])
              | q => ({ s with phase := .looping q [] }, [])
      | _ => (s, [])
  | .step ok =>
      match s.phase with
      | .looping (e :: rest) remain =>
          let remain2 := match ok with
            | true => remain
            | false => remain ++ [e]
          match rest with
          | [] =>
              ({ stored := setPendingQueue remain2, flushing := false
                 phase := .idle }, [e])
          | _ :: _ => ({ s with phase := .looping rest remain2 }, [e])
      | _ => (s, [])

/-- Run of the flush machine over a list of scheduler events, collecting
every attempted entry in order. -/
def execTrace (s : FlushMachine) : List FlushEvent → FlushMachine × List SaveEntry
  | [] => (s, [])
  | ev :: rest =>
      let r1 := execEvent s ev
      let r2 := execTrace r1.1 rest
      (r2.1, r1.2 ++ r2.2)

/-- The entries of `queue` whose upsert attempt failed (matched positionally
with the outcome list `oks`), in their original order: the `remain` queue
a full flush run accumulates. -/
def flushFailures : List SaveEntry → List Bool → List SaveEntry
  | [], _ => []
  | _, [] => []
  | e :: q, ok :: oks =>
      if ok then flushFailures q oks else e :: flushFailures q oks

/-- The invariant tying the busy flag to the control point: the flag is set
exactly while a run is between its entry and its completion. -/
def flushInv (s : FlushMachine) : Prop :=
  s.flushing = true ↔ s.phase ≠ .idle

/-- The typed outcome record returned by `writeEntry` and
`saveNowDetailed`. -/
structure SaveResult where
  ok : Bool
  reason : String
  queued : Bool
deriving DecidableEq

/-- Behaviour of the external collaborators during one save attempt:
the outcome of the `ensureFirebaseReady` bootstrap (which may throw), the
remote `docRef.set` write per entry (which may throw), the network signal
`navigator.onLine` (`none` models an absent `navigator`), the caller
payload callback (which may throw), and the clock value used for
`clientUpdatedAt`. -/
structure WriteEnv where
  ensureReady : Except String Bool
  remoteWrite : SaveEntry → Except String Unit
  navigatorOnLine : Option Bool
  getPayload : Except String Payload
  now : String

/-- The module state the write path reads and writes: the stored pending
queue, whether `state.db` holds a handle (`getDocRefForEntry` returns null
without it), and the `init`-controlled flags. The field `inited` models the
source flag `state.initialized`. -/
structure LocalState where
  pending : List SaveEntry
  dbSet : Bool
  inited : Bool
  enabled : Bool
  hasGetPayload : Bool
deriving DecidableEq

/-- Embedding of `deepClone` as used on this immutable payload
representation: the JSON round-trip is the identity on records of present
string fields (the heap-level aliasing behaviour of `deepClone` is modelled
separately below for the defensive-copy claim). -/
def deepClonePure (p : Payload) : Payload := p

/-- Embedding of `writeEntry(entry)`. The un-guarded
`await ensureFirebaseReady()` propagates a thrown bootstrap error; a
non-ready session or a missing document handle queues the entry with reason
`firebase_unready`; a throwing remote write queues the entry with reason
`offline` when the network signal reports offline and `write_failed`
otherwise; a successful write reports `ok`. -/
def writeEntry (env : WriteEnv) (st : LocalState) (entry : SaveEntry) :
    Except String (LocalState × SaveResult) :=
  match env.ensureReady with
  | .error msg => .error msg
  | .ok ready =>
      if !ready || !st.dbSet then
        .ok ({ st with pending := pushPending st.pending entry },
          { ok := false, reason := "firebase_unready", queued := true })
      else
        match env.remoteWrite entry with
        | .ok _ => .ok (st, { ok := true, reason := "ok", queued := false })
        | .error _ =>
            .ok ({ st with pending := pushPending st.pending entry },
              { ok := false
                reason := if env.navigatorOnLine = some false then "offline"
                  else "write_failed"
                queued := true })

/-- Embedding of `saveNowDetailed(source)`. The Boolean in the result is
whether `flushPending` was invoked afterwards (the opportunistic
flush-on-success `if (result.ok) void flushPending()`). The un-guarded
`state.getPayload()` call propagates a thrown callback error. -/
def saveNowDetailed (env : WriteEnv) (st : LocalState) (source : Option String) :
    Except String (LocalState × SaveResult × Bool) :=
  if !st.inited || !st.enabled then
    .ok (st, { ok := false, reason := "disabled", queued := false }, false)
  else if !st.hasGetPayload then
    .ok (st, { ok := false, reason := "payload_missing", queued := false },
      false)
  else
    match env.getPayload with
    | .error msg => .error msg
    | .ok raw =>
        match writeEntry env st
          { source := source.getD "manual", clientUpdatedAt := env.now
            payload := deepClonePure raw } with
        | .error msg => .error msg
        | .ok r => .ok (r.1, r.2, r.2.ok)

/-- Embedding of `saveNow(source)`: the detailed result reduced to its
`ok` Boolean (the flush-invocation Boolean is carried along). -/
def saveNow (env : WriteEnv) (st : LocalState) (source : Option String) :
    Except String (LocalState × Bool × Bool) :=
  match saveNowDetailed env st source with
  | .error msg => .error msg
  | .ok r => .ok (r.1, r.2.1.ok, r.2.2)

/-- The debounce delay of `schedule` (milliseconds). -/
def scheduleDelayMs : Nat := 700

/-- Firing times induced by a sorted trace of `schedule` call times under
the host timer semantics: each call clears the armed timer
(`clearTimeout(state.saveTimer)`) and arms a new one at its own time plus
the delay (`setTimeout(..., 700)`); an armed timer fires unless a later
call occurs strictly before its deadline. -/
def debounceFires (delay : Nat) : List Nat → List Nat
  | [] => []
  | t :: rest =>
      match rest with
      | [] => [t + delay]
      | t2 :: _ =>
          if t2 < t + delay then debounceFires delay rest
          else (t + delay) :: debounceFires delay rest

/-- The write attempts produced by a trace of `schedule` calls: one
`saveNow` per surviving timer firing, reading the caller payload callback
at the moment the timer fires (`payloadAt` models the callback as a
function of time). -/
def debounceWrites (payloadAt : Nat → Payload) (times : List Nat) :
    List (Nat × Payload) :=
  (debounceFires scheduleDelayMs times).map (fun f => (f, payloadAt f))

/-- A JavaScript value in the heap model used for the defensive-copy
behaviour of `deepClone`: a primitive (string) or a reference to a heap
object. -/
inductive JVal where
  | str (s : String)
  | ref (a : Nat)
deriving DecidableEq

/-- A heap object: an ordered association of property names to values. -/
abbrev JObj := List (String × JVal)

/-- The mutable heap: an association of addresses to objects. -/
abbrev Heap := List (Nat × JObj)

/-- Look an address up in the heap. -/
def lookupH : Heap → Nat → Option JObj
  | [], _ => none
  | (b, o) :: rest, a => if a = b then some o else lookupH rest a

/-- Property lookup in an object. -/
def getProp : JObj → String → Option JVal
  | [], _ => none
  | (k2, v) :: rest, k => if k = k2 then some v else getProp rest k

/-- Assignment `obj[k] = v` on one object: replace the property when
present, append it otherwise. -/
def setObjProp (o : JObj) (k : String) (v : JVal) : JObj :=
  if o.any (fun p => p.1 = k) then
    o.map (fun p => if p.1 = k then (k, v) else p)
  else o ++ [(k, v)]

/-- A mutation of the caller-owned graph: assign property `k` of the object
at address `a` to `w` (addresses are unique in every heap built here, so
updating the first hit is the JS object mutation). -/
def setField : Heap → Nat → String → JVal → Heap
  | [], _, _, _ => []
  | (b, o) :: rest, a, k, w =>
      if b = a then (b, setObjProp o k w) :: rest
      else (b, o) :: setField rest a k w

/-- The property read the sync engine performs on a payload object (the
observation used to compare a queued entry against later mutations). -/
def readField (h : Heap) (v : JVal) (k : String) : Option JVal :=
  match v with
  | .ref a => (lookupH h a).bind (fun o => getProp o k)
  | .str _ => none

/-- The first address strictly above every address of the heap; fresh
allocations by `JSON.parse` start here. -/
def freshAddr (h : Heap) : Nat :=
  h.foldl (fun m p => max m (p.1 + 1)) 0

/-- The JSON document tree denoted by the text `JSON.stringify` produces:
a string, or an object spine of key-subtree pairs. -/
inductive JTree where
  | str (s : String)
  | nil
  | cons (key : String) (val : JTree) (rest : JTree)
deriving DecidableEq

/-- Serialize an object spine given a serializer for values (the
field-by-field traversal of `JSON.stringify`; a failing field fails the
whole serialization, as a thrown cycle error does). -/
def toSpineAux (f : JVal → Option JTree) : JObj → Option JTree
  | [] => some .nil
  | (k, v) :: rest =>
      match f v with
      | none => none
      | some tv =>
          match toSpineAux f rest with
          | none => none
          | some tr => some (.cons k tv tr)

/-- Serialize a value to its document tree, dereferencing the heap, with
fuel bounding the reference depth: exhausted fuel on a reference models the
cycle error `JSON.stringify` throws (an acyclic graph of `n` objects never
chains more than `n` references, so the fuel chosen below is never the
reason a serializable graph fails). -/
def toTree (h : Heap) : Nat → JVal → Option JTree
  | _, .str s => some (.str s)
  | 0, .ref _ => none
  | fuel + 1, .ref a =>
      match lookupH h a with
      | none => none
      | some o => toSpineAux (toTree h fuel) o

/-- Embedding of `JSON.stringify(value)` on the heap model: the document
tree the produced text denotes, `none` when stringification throws. -/
def jsonStringify (h : Heap) (v : JVal) : Option JTree :=
  toTree h (h.length + 1) v

/-- Embedding of the object part of `JSON.parse`: rebuild the fields of an
object spine as a fresh object graph, allocating sequentially from `n`;
returns the next free address, the newly allocated objects, and the field
list. A string field allocates nothing; an object field first rebuilds its
own graph, then allocates the object itself, then continues with the
remaining fields. -/
def fromObj (n : Nat) : JTree → Nat × Heap × JObj
  | .str _ => (n, [], [])
  | .nil => (n, [], [])
  | .cons k (.str s) rest =>
      let r := fromObj n rest
      (r.1, r.2.1, (k, .str s) :: r.2.2)
  | .cons k .nil rest =>
      let r := fromObj (n + 1) rest
      (r.1, (n, []) :: r.2.1, (k, .ref n) :: r.2.2)
  | .cons k (.cons k2 v2 r2) rest =>
      let rv := fromObj n (.cons k2 v2 r2)
      let r := fromObj (rv.1 + 1) rest
      (r.1, rv.2.1 ++ [(rv.1, rv.2.2)] ++ r.2.1, (k, .ref rv.1) :: r.2.2)

/-- Embedding of the value part of `JSON.parse`: a string stays a string,
an object spine is rebuilt by `fromObj` and then allocated at the next free
address. -/
def fromVal (n : Nat) : JTree → Nat × Heap × JVal
  | .str s => (n, [], .str s)
  | .nil =>
      let r := fromObj n .nil
      (r.1 + 1, r.2.1 ++ [(r.1, r.2.2)], .ref r.1)
  | .cons k v rest =>
      let r := fromObj n (.cons k v rest)
      (r.1 + 1, r.2.1 ++ [(r.1, r.2.2)], .ref r.1)

/-- Embedding of `deepClone(value)` at the heap level:
`JSON.parse(JSON.stringify(value))` allocates a fresh copy of the graph
when stringification succeeds; when it throws (for example on a circular
structure) the `catch` branch returns the value itself, an alias of the
caller-owned graph. -/
def deepClone (h : Heap) (v : JVal) : Heap × JVal :=
  match jsonStringify h v with
  | none => (h, v)
  | some t =>
      let r := fromVal (freshAddr h) t
      (h ++ r.2.1, r.2.2)

mutual
/-- Fuel needed to serialize the graph `fromVal` builds for a tree (value
position). -/
def needV : JTree → Nat
  | .str _ => 0
  | .nil => 1
  | .cons _ v rest => 1 + max (needV v) (needS rest)

/-- Fuel needed to serialize the graph `fromObj` builds for a tree (spine
position). -/
def needS : JTree → Nat
  | .str _ => 0
  | .nil => 0
  | .cons _ v rest => max (needV v) (needS rest)
end

/-- A value whose references all point at or above `n`. -/
def valAbove (n : Nat) : JVal → Prop
  | .str _ => True
  | .ref a => n ≤ a

/-- An object whose field values all point at or above `n`. -/
def objAbove (n : Nat) (o : JObj) : Prop :=
  ∀ p ∈ o, valAbove n p.2

/-- A heap fragment whose addresses lie in the interval and whose objects
point at or above its lower bound. -/
def heapIn (lo hi : Nat) (hp : Heap) : Prop :=
  ∀ q ∈ hp, lo ≤ q.1 ∧ q.1 < hi ∧ objAbove lo q.2

/-- Whether a tree is an object spine (`nil` or `cons`) rather than a
string. -/
def isSpine : JTree → Bool
  | .str _ => false
  | .nil => true
  | .cons _ _ _ => true

/-- A document tree is well formed when the tail of every field spine is a
spine (never a string); `JSON.stringify` only produces such trees. -/
def wfTree : JTree → Bool
  | .str _ => true
  | .nil => true
  | .cons _ v rest => wfTree v && wfTree rest && isSpine rest

/-- The payload of the scenario entry of the error-handling claim. -/
def samplePayload : Payload :=
  { current := some
      { inspectionDate := some "2025-03-14", driverName := some "Sato"
        vehicleNumber := none, truckType := none }
    otherData := [] }

/-- The entry `saveNowDetailed` constructs in the scenario of the
error-handling claim. -/
def sampleEntry : SaveEntry :=
  { source := "input", clientUpdatedAt := "2025-03-14T09:00:00.000Z"
    payload := samplePayload }

/-- Concrete entries used as witnesses for the queue claims. -/
def entryA : SaveEntry :=
  { source := "a", clientUpdatedAt := "t1"
    payload := { current := none, otherData := [] } }

/-- A second concrete entry, distinct from `entryA`. -/
def entryB : SaveEntry :=
  { source := "b", clientUpdatedAt := "t2"
    payload := { current := none, otherData := [] } }

/-- A third concrete entry. -/
def entryC : SaveEntry :=
  { source := "c", clientUpdatedAt := "t3"
    payload := { current := none, otherData := [] } }

/-- A module state with sync active and a resolved remote handle. -/
def stReady : LocalState :=
  { pending := [], dbSet := true, inited := true, enabled := true
    hasGetPayload := true }

/-- Collaborator behaviour of the scenario of the error-handling claim:
bootstrap succeeds, the remote write throws, the network signal reports
online, the payload callback returns the scenario payload. -/
def envScenario : WriteEnv :=
  { ensureReady := .ok true
    remoteWrite := fun _ => .error "network boom"
    navigatorOnLine := some true
    getPayload := .ok samplePayload
    now := "2025-03-14T09:00:00.000Z" }

/-- Collaborator behaviour where the session bootstrap throws (for example
the SDK scripts fail to load). -/
def envBootThrow : WriteEnv :=
  { ensureReady := .error "Failed to load Firebase SDK"
    remoteWrite := fun _ => .ok ()
    navigatorOnLine := some true
    getPayload := .ok samplePayload
    now := "2025-03-14T09:00:00.000Z" }

/-- Collaborator behaviour where the payload callback throws. -/
def envPayloadThrow : WriteEnv :=
  { ensureReady := .ok true
    remoteWrite := fun _ => .ok ()
    navigatorOnLine := some true
    getPayload := .error "payload callback threw"
    now := "2025-03-14T09:00:00.000Z" }

/-- The options of the document-id construction example (company code
`"acme co"`). -/
def optsAcme : SyncOptions :=
  { enabled := true, collection := "monthly_tire_autosave"
    docPre := "monthly_tire", companyCode := "acme co"
    useAnonymousAuth := true, autoFlushIntervalMs := 15000 }

/-- An entry of the identity example: March 2025, driver name with extra
whitespace, an extra opaque payload field. -/
def entryW1 : SaveEntry :=
  { source := "input", clientUpdatedAt := "x"
    payload :=
      { current := some
          { inspectionDate := some "2025-03-14"
            driverName := some " Sato ", vehicleNumber := some "V-1"
            truckType := some "T" }
        otherData := [("extra", "1")] } }

/-- A second entry of the identity example: a different March 2025 day and
no extra fields, but the same identity fields once trimmed. -/
def entryW2 : SaveEntry :=
  { source := "manual", clientUpdatedAt := "y"
    payload :=
      { current := some
          { inspectionDate := some "2025-03-20"
            driverName := some "Sato", vehicleNumber := some "V-1"
            truckType := some "T" }
        otherData := [] } }

/-- A heap holding one circular object: the object at address 0 references
itself. -/
def circHeap : Heap := [(0, [("self", JVal.ref 0)])]

/-- A small acyclic heap: one object with one string field. -/
def acyclicHeap : Heap := [(0, [("a", JVal.str "x")])]

theorem data_mk (l : List Char) : (String.mk l).data = l := rfl

theorem length_mk (l : List Char) : (String.mk l).length = l.length := rfl

theorem digit_not_ws {c : Char} (h : isDigitCh c = true) :
    isJsWhitespace c = false := by
  simp only [isDigitCh, Bool.and_eq_true, decide_eq_true_eq] at h
  simp only [isJsWhitespace, Bool.or_eq_false_iff, decide_eq_false_iff_not]
  omega

theorem dropWhile_no_ws {l : List Char}
    (h : ∀ c ∈ l, isJsWhitespace c = false) :
    l.dropWhile isJsWhitespace = l := by
  cases l with
  | nil => rfl
  | cons a t =>
      exact List.dropWhile_cons_of_neg
        (by simp [h a (List.mem_cons_self a t)])

theorem jsTrim_no_ws {l : List Char}
    (h : ∀ c ∈ l, isJsWhitespace c = false) :
    jsTrim (String.mk l) = String.mk l := by
  unfold jsTrim
  rw [data_mk, dropWhile_no_ws h,
    dropWhile_no_ws (fun c hc => h c (List.mem_reverse.mp hc)),
    List.reverse_reverse]

theorem parseMonth_shape (d : String) :
    parseMonthFromDateText d = "" ∨
      ∃ l : List Char, parseMonthFromDateText d = String.mk l ∧ l ≠ [] ∧
        ∀ c ∈ l, isJsWhitespace c = false := by
  unfold parseMonthFromDateText
  split
  · split
    next hdig =>
      right
      refine ⟨_, rfl, by simp, ?_⟩
      intro c hc
      simp only [Bool.and_eq_true] at hdig
      obtain ⟨⟨⟨⟨⟨⟨⟨hy1, hy2⟩, hy3⟩, hy4⟩, hm1⟩, hm2⟩, hd1⟩, hd2⟩ := hdig
      simp only [List.mem_cons, List.not_mem_nil, or_false] at hc
      rcases hc with rfl | rfl | rfl | rfl | rfl | rfl | rfl
      · exact digit_not_ws hy1
      · exact digit_not_ws hy2
      · exact digit_not_ws hy3
      · exact digit_not_ws hy4
      · decide
      · exact digit_not_ws hm1
      · exact digit_not_ws hm2
    next => left; rfl
  · left; rfl

theorem sanitizeId_parsed_indep {m : String}
    (hl : ∃ l : List Char, m = String.mk l ∧ l ≠ [] ∧
      ∀ c ∈ l, isJsWhitespace c = false)
    (f1 f2 : String) : sanitizeId m f1 = sanitizeId m f2 := by
  obtain ⟨l, rfl, hne, hws⟩ := hl
  simp only [sanitizeId, jsTrim_no_ws hws, data_mk]
  rw [if_neg (by simpa using hne), if_neg (by simpa using hne)]

theorem extractInspectionMonth_of_parsed {e : SaveEntry} (n : String)
    (h : parseMonthFromDateText (rawInspectionDate e) ≠ "") :
    extractInspectionMonth n e = parseMonthFromDateText (rawInspectionDate e) := by
  unfold extractInspectionMonth
  simp [h]

theorem fnv_lt (s : String) : fnv s < 4294967296 := by
  unfold fnv
  have key : ∀ (l : List Char) (h : Nat), h < 4294967296 →
      List.foldl (fun h c => fnvStep h c.toNat) h l < 4294967296 := by
    intro l
    induction l with
    | nil => intro h hh; simpa using hh
    | cons a t ih =>
        intro h hh
        simp only [List.foldl_cons]
        exact ih _ (Nat.mod_lt _ (by norm_num))
  exact key _ _ (by norm_num)

theorem hexDigits_zero : hexDigits 0 = [] := by
  unfold hexDigits
  simp

theorem hexDigits_of_ne {n : Nat} (h : n ≠ 0) :
    hexDigits n = hexDigits (n / 16) ++ [hexChar (n % 16)] := by
  conv_lhs => unfold hexDigits
  simp [h]

theorem hexDigits_length_le : ∀ (k n : Nat), n < 16 ^ k →
    (hexDigits n).length ≤ k := by
  intro k
  induction k with
  | zero =>
      intro n hn
      have : n = 0 := by omega
      simp [this, hexDigits_zero]
  | succ k ih =>
      intro n hn
      by_cases h : n = 0
      · simp [h, hexDigits_zero]
      · rw [hexDigits_of_ne h]
        have hdiv : n / 16 < 16 ^ k := by
          rw [Nat.div_lt_iff_lt_mul (by norm_num : (0:Nat) < 16)]
          calc n < 16 ^ (k + 1) := hn
          _ = 16 ^ k * 16 := by ring
        have := ih _ hdiv
        simp only [List.length_append, List.length_cons, List.length_nil]
        omega

theorem hexChar_hex : ∀ m, m < 16 → isHexLowerChar (hexChar m) = true := by
  decide

theorem hexDigits_chars : ∀ (n : Nat), ∀ c ∈ hexDigits n,
    isHexLowerChar c = true := by
  intro n
  induction n using Nat.strong_induction_on with
  | _ n ih =>
      by_cases h : n = 0
      · simp [h, hexDigits_zero]
      · rw [hexDigits_of_ne h]
        intro c hc
        rcases List.mem_append.mp hc with h1 | h2
        · exact ih (n / 16)
            (Nat.div_lt_self (Nat.pos_of_ne_zero h) (by norm_num)) c h1
        · simp only [List.mem_singleton] at h2
          subst h2
          exact hexChar_hex _ (Nat.mod_lt _ (by norm_num))

theorem hashText_shape (s : String) :
    (hashText s).length = 8 ∧ ∀ c ∈ (hashText s).data,
      isHexLowerChar c = true := by
  have hlen : (jsHexString (fnv s)).length ≤ 8 := by
    unfold jsHexString
    split
    · simp
    · refine hexDigits_length_le 8 _ ?_
      have h16 : (16:Nat) ^ 8 = 4294967296 := by norm_num
      rw [h16]
      exact fnv_lt s
  have hchars : ∀ c ∈ jsHexString (fnv s), isHexLowerChar c = true := by
    unfold jsHexString
    split
    · intro c hc
      simp only [List.mem_singleton] at hc
      subst hc
      decide
    · exact hexDigits_chars _
  constructor
  · show (padStart8 (jsHexString (fnv s))).length = 8
    unfold padStart8
    simp only [List.length_append, List.length_replicate]
    omega
  · show ∀ c ∈ padStart8 (jsHexString (fnv s)), isHexLowerChar c = true
    unfold padStart8
    intro c hc
    rcases List.mem_append.mp hc with h1 | h2
    · have := List.eq_of_mem_replicate h1
      subst this
      decide
    · exact hchars c h2

/-- C1: the basic signature is a pure, deterministic 32-bit order-sensitive
hash of the pipe-joined month key and three trimmed text fields, rendered
as exactly 8 lowercase hex characters; two payloads with well-formed
inspection dates that agree on the month key and the three identity fields
resolve to the same basic signature and document id whatever their other
fields, their metadata, or the clock month at resolution time; and identity
resolution is idempotent. -/
theorem C1_identity_resolver (opts : SyncOptions)
    (uid1 uid2 dev1 dev2 n1 n2 : String) (e1 e2 : SaveEntry)
    (h1 : parseMonthFromDateText (rawInspectionDate e1) ≠ "")
    (h2 : parseMonthFromDateText (rawInspectionDate e2) ≠ "")
    (hm : parseMonthFromDateText (rawInspectionDate e1)
        = parseMonthFromDateText (rawInspectionDate e2))
    (hd : (extractBasicInfo e1).driverName = (extractBasicInfo e2).driverName)
    (hv : (extractBasicInfo e1).vehicleNumber
        = (extractBasicInfo e2).vehicleNumber)
    (ht : (extractBasicInfo e1).truckType = (extractBasicInfo e2).truckType) :
    (getDocInfoForEntry opts uid1 dev1 n1 e1).basicSignature
        = (getDocInfoForEntry opts uid2 dev2 n2 e2).basicSignature
      ∧ (getDocInfoForEntry opts uid1 dev1 n1 e1).docId
        = (getDocInfoForEntry opts uid2 dev2 n2 e2).docId
      ∧ (∀ s : String, (hashText s).length = 8
          ∧ ∀ c ∈ (hashText s).data, isHexLowerChar c = true)
      ∧ (∀ e n uid dev, getDocInfoForEntry opts uid dev n e
          = getDocInfoForEntry opts uid dev n e) := by
  have hmon1 := extractInspectionMonth_of_parsed (e := e1) n1 h1
  have hmon2 := extractInspectionMonth_of_parsed (e := e2) n2 h2
  have hsig : buildBasicSignature n1 e1 = buildBasicSignature n2 e2 := by
    unfold buildBasicSignature
    rw [hmon1, hmon2, hm]
    simp only [hd, hv, ht]
  have hshape := (parseMonth_shape (rawInspectionDate e2)).resolve_left h2
  have hdoc : buildDocId opts n1 (extractInspectionMonth n1 e1)
      (buildBasicSignature n1 e1)
      = buildDocId opts n2 (extractInspectionMonth n2 e2)
        (buildBasicSignature n2 e2) := by
    rw [hmon1, hmon2, hm, hsig]
    unfold buildDocId
    rw [sanitizeId_parsed_indep hshape n1 n2]
  refine ⟨?_, ?_, hashText_shape, fun e n uid dev => rfl⟩
  · show buildBasicSignature n1 e1 = buildBasicSignature n2 e2
    exact hsig
  · show buildDocId opts n1 (extractInspectionMonth n1 e1)
        (buildBasicSignature n1 e1)
      = buildDocId opts n2 (extractInspectionMonth n2 e2)
        (buildBasicSignature n2 e2)
    exact hdoc

theorem C1_identity_resolver_witness :
    (getDocInfoForEntry optsAcme "u1" "d1" "2099-01" entryW1).docId
      = (getDocInfoForEntry optsAcme "u2" "d2" "2099-02" entryW2).docId :=
  (C1_identity_resolver optsAcme "u1" "u2" "d1" "d2" "2099-01" "2099-02"
    entryW1 entryW2 (by decide) (by decide) (by decide) (by decide)
    (by decide) (by decide)).2.1

/-- C2: the document id is the four sanitized components joined by
underscores and capped at 200 characters, each component sanitized to the
class of letters, digits, underscore and dash (at most 120 characters, or
the fallback); in particular the example id for the acme options, month
2025-03 and signature a1b2c3d4 is exactly the expected string. -/
theorem C2_doc_id_construction :
    (∀ nowMonth : String,
        buildDocId optsAcme nowMonth "2025-03" "a1b2c3d4"
          = "monthly_tire_acme_co_2025-03_a1b2c3d4")
      ∧ (∀ (opts : SyncOptions) (nowMonth mk sig : String),
          (buildDocId opts nowMonth mk sig).length ≤ 200)
      ∧ (∀ v f : String, sanitizeId v f = f ∨
          ((sanitizeId v f).length ≤ 120 ∧
            ∀ c ∈ (sanitizeId v f).data, isIdChar c = true)) := by
  refine ⟨fun nowMonth => rfl, ?_, ?_⟩
  · intro opts nowMonth mk sig
    unfold buildDocId
    show (String.mk (List.take 200 _)).length ≤ 200
    rw [length_mk]
    simp [List.length_take]
  · intro v f
    simp only [sanitizeId]
    split
    · left; rfl
    · right
      constructor
      · rw [length_mk]
        simp [List.length_take]
      · intro c hc
        rw [data_mk] at hc
        have hc2 := List.take_subset 120 _ hc
        rw [data_mk] at hc2
        rcases List.mem_map.mp hc2 with ⟨c0, _, rfl⟩
        by_cases h : isIdChar c0 = true
        · rw [if_pos h]; exact h
        · rw [if_neg h]; decide

theorem C2_doc_id_construction_witness :
    buildDocId optsAcme "2099-12" "2025-03" "a1b2c3d4"
        = "monthly_tire_acme_co_2025-03_a1b2c3d4"
      ∧ (buildDocId optsAcme "2099-12" "x" "y").length ≤ 200
      ∧ isIdChar 'a' = true :=
  ⟨C2_doc_id_construction.1 "2099-12",
   C2_doc_id_construction.2.1 optsAcme "2099-12" "x" "y",
   ((C2_doc_id_construction.2.2 "a b" "fb").resolve_left (by decide)).2
     'a' (by decide)⟩

theorem pushPending_eq {q : List SaveEntry} (e : SaveEntry)
    (h : q.length ≤ MAX_PENDING) :
    pushPending q e = (q ++ [e]).drop (q.length + 1 - MAX_PENDING) := by
  simp only [pushPending, setPendingQueue, MAX_PENDING] at *
  have hlen : (q ++ [e]).length = q.length + 1 := by simp
  rw [hlen]
  by_cases hc : 200 < q.length + 1
  · rw [if_pos hc]
    rw [List.take_of_length_le (by rw [List.length_drop]; omega)]
  · rw [if_neg hc]
    rw [List.take_of_length_le (by omega)]
    have h0 : q.length + 1 - 200 = 0 := by omega
    rw [h0, List.drop_zero]

theorem foldl_pushPending_free : ∀ (es q : List SaveEntry),
    q.length + es.length ≤ MAX_PENDING → es.foldl pushPending q = q ++ es := by
  intro es
  induction es with
  | nil => intro q h; simp
  | cons e t ih =>
      intro q h
      simp only [List.length_cons] at h
      have hq : q.length ≤ MAX_PENDING := by
        simp only [MAX_PENDING] at *; omega
      simp only [List.foldl_cons]
      rw [pushPending_eq e hq]
      have h0 : q.length + 1 - MAX_PENDING = 0 := by
        simp only [MAX_PENDING] at *; omega
      rw [h0, List.drop_zero]
      rw [ih (q ++ [e]) (by simp only [List.length_append, List.length_cons,
        List.length_nil, MAX_PENDING] at *; omega)]
      simp

theorem foldl_pushPending_full (es : List SaveEntry)
    (h : es.length = MAX_PENDING + 1) :
    es.foldl pushPending [] = es.drop 1 := by
  have hsplit := List.take_append_drop MAX_PENDING es
  have hlt : (es.take MAX_PENDING).length = MAX_PENDING := by
    rw [List.length_take]; omega
  have hdrop : (es.drop MAX_PENDING).length = 1 := by
    rw [List.length_drop]; omega
  obtain ⟨e, he⟩ := List.length_eq_one.mp hdrop
  have h1 : es.foldl pushPending []
      = pushPending (es.take MAX_PENDING) e := by
    conv_lhs => rw [← hsplit]
    rw [List.foldl_append,
      foldl_pushPending_free _ [] (by simp [hlt]), he]
    simp
  rw [h1, pushPending_eq e (le_of_eq hlt), hlt]
  have h2 : MAX_PENDING + 1 - MAX_PENDING = 1 := by omega
  rw [h2]
  have h3 : es.take MAX_PENDING ++ [e] = es := by rw [← he, hsplit]
  rw [h3]

/-- C3: the pending queue never exceeds its bound of 200 entries: for every
starting queue of length at most 200, a push appends at the back and drops
exactly the front overflow, the result stays within the bound, and pushing
201 entries onto an empty store leaves exactly the most recent 200 in
insertion order. -/
theorem C3_pending_bound :
    (∀ (q : List SaveEntry) (e : SaveEntry), q.length ≤ MAX_PENDING →
        pushPending q e = (q ++ [e]).drop (q.length + 1 - MAX_PENDING))
      ∧ (∀ (q : List SaveEntry) (e : SaveEntry), q.length ≤ MAX_PENDING →
          (pushPending q e).length ≤ MAX_PENDING)
      ∧ (∀ es : List SaveEntry, es.length = MAX_PENDING + 1 →
          es.foldl pushPending [] = es.drop 1) := by
  refine ⟨fun q e h => pushPending_eq e h, ?_,
    fun es h => foldl_pushPending_full es h⟩
  intro q e h
  rw [pushPending_eq e h, List.length_drop]
  simp only [List.length_append, List.length_cons, List.length_nil,
    MAX_PENDING] at *
  omega

theorem C3_pending_bound_witness :
    pushPending [] entryA
        = ([] ++ [entryA]).drop (List.length ([] : List SaveEntry) + 1 - MAX_PENDING)
      ∧ (pushPending [] entryA).length ≤ MAX_PENDING
      ∧ (List.replicate (MAX_PENDING + 1) entryA).foldl pushPending []
          = (List.replicate (MAX_PENDING + 1) entryA).drop 1 :=
  ⟨C3_pending_bound.1 [] entryA (by decide),
   C3_pending_bound.2.1 [] entryA (by decide),
   C3_pending_bound.2.2 _ (by simp)⟩

set_option maxRecDepth 8192 in
/-- C10: the whole-queue replace path truncates an over-long list by
keeping its first 200 entries, the oldest; so the sliding-window policy
holds only for the push path, as witnessed by a list on which replace and
a most-recent-200 window disagree. -/
theorem C10_replace_truncates_oldest :
    (∀ L : List SaveEntry, MAX_PENDING < L.length →
        setPendingQueue L = L.take MAX_PENDING)
      ∧ (∃ L : List SaveEntry, MAX_PENDING < L.length ∧
          setPendingQueue L ≠ L.drop (L.length - MAX_PENDING)) := by
  constructor
  · intro L h
    rfl
  · exact ⟨entryA :: List.replicate MAX_PENDING entryB, by decide, by decide⟩

theorem C10_replace_truncates_oldest_witness :
    setPendingQueue (entryA :: List.replicate MAX_PENDING entryB)
      = (entryA :: List.replicate MAX_PENDING entryB).take MAX_PENDING :=
  C10_replace_truncates_oldest.1 _
    (by rw [List.length_cons, List.length_replicate]; omega)

theorem execTrace_steps :
    ∀ (q : List SaveEntry) (oks : List Bool) (rem stored : List SaveEntry),
      oks.length = q.length → q ≠ [] →
      execTrace { stored := stored, flushing := true, phase := .looping q rem }
          (oks.map .step)
        = ({ stored := setPendingQueue (rem ++ flushFailures q oks)
             flushing := false, phase := .idle }, q) := by
  intro q
  induction q with
  | nil => intro oks rem stored h hne; exact absurd rfl hne
  | cons e q ih =>
      intro oks rem stored h hne
      cases oks with
      | nil => simp at h
      | cons ok oks =>
          simp only [List.length_cons] at h
          cases q with
          | nil =>
              have hoks : oks = [] := by
                cases oks with
                | nil => rfl
                | cons a b => simp at h
              subst hoks
              cases ok <;> simp [execTrace, execEvent, flushFailures]
          | cons e2 q2 =>
              have hq : e2 :: q2 ≠ [] := by simp
              cases ok
              · simp only [List.map_cons, execTrace, execEvent]
                rw [ih oks (rem ++ [e]) stored (by omega) hq]
                simp [flushFailures]
              · simp only [List.map_cons, execTrace, execEvent]
                rw [ih oks rem stored (by omega) hq]
                simp [flushFailures]

/-- C4: a flush drains the queue front-to-back, attempting one upsert per
entry; failed entries are carried into the remaining queue in their
original order, successful ones are dropped, and the remaining queue
replaces the stored queue at the end regardless of how many succeeded; for
a queue of three entries whose second upsert fails, the persisted queue is
exactly the second entry. -/
theorem C4_flush_drain (Q : List SaveEntry) (oks : List Bool)
    (h1 : oks.length = Q.length) (h2 : Q ≠ []) :
    execTrace { stored := Q, flushing := false, phase := .idle }
        (.call :: .resume (.ok true) :: oks.map .step)
      = ({ stored := setPendingQueue (flushFailures Q oks)
           flushing := false, phase := .idle }, Q)
    ∧ execTrace
        { stored := [entryA, entryB, entryC], flushing := false,
          phase := .idle }
        [.call, .resume (.ok true), .step true, .step false, .step true]
      = ({ stored := [entryB], flushing := false, phase := .idle },
         [entryA, entryB, entryC]) := by
  constructor
  · obtain ⟨a, t, rfl⟩ : ∃ a t, Q = a :: t := by
      cases Q with
      | nil => exact absurd rfl h2
      | cons a t => exact ⟨a, t, rfl⟩
    simp only [execTrace, execEvent]
    rw [execTrace_steps (a :: t) oks [] (a :: t) h1 (by simp)]
    simp
  · decide

theorem C4_flush_drain_witness :
    execTrace { stored := [entryA], flushing := false, phase := .idle }
        (.call :: .resume (.ok true) :: [false].map .step)
      = ({ stored := setPendingQueue (flushFailures [entryA] [false])
           flushing := false, phase := .idle }, [entryA]) :=
  (C4_flush_drain [entryA] [false] rfl (by decide)).1

/-- C5: flush is never concurrent with itself: a call while the busy flag
is set returns immediately leaving the state unchanged and attempting no
entry; the busy flag tracks exactly an active run and is cleared when a run
completes, including on a thrown bootstrap error; and two overlapping calls
on a queue attempt each queued entry exactly once. -/
theorem C5_flush_serialized :
    (∀ s : FlushMachine, s.flushing = true → execEvent s .call = (s, []))
      ∧ (∀ (s : FlushMachine) (ev : FlushEvent),
          flushInv s → flushInv (execEvent s ev).1)
      ∧ (∀ (s : FlushMachine) (msg : String), s.phase = .awaitingReady →
          (execEvent s (.resume (.error msg))).1.flushing = false)
      ∧ (∀ (Q : List SaveEntry) (oks : List Bool),
          oks.length = Q.length → Q ≠ [] →
          execTrace { stored := Q, flushing := false, phase := .idle }
              (.call :: .call :: .resume (.ok true) :: oks.map .step)
            = ({ stored := setPendingQueue (flushFailures Q oks)
                 flushing := false, phase := .idle }, Q)) := by
  refine ⟨?_, ?_, ?_, ?_⟩
  · intro s h
    simp [execEvent, h]
  · rintro ⟨st, fl, ph⟩ ev hinv
    simp only [flushInv] at hinv ⊢
    cases ev with
    | call =>
        by_cases hf : fl = true
        · simpa [execEvent, hf] using hinv
        · simp only [Bool.not_eq_true] at hf
          subst hf
          simp [execEvent]
    | resume outcome =>
        cases ph with
        | idle => simpa [execEvent] using hinv
        | awaitingReady =>
            have hfl : fl = true := hinv.mpr (by simp)
            subst hfl
            cases outcome with
            | error msg => simp [execEvent]
            | ok b =>
                cases b
                · simp [execEvent]
                · cases st with
                  | nil => simp [execEvent]
                  | cons a t => simp [execEvent]
        | looping toDo rem => simpa [execEvent] using hinv
    | step ok =>
        cases ph with
        | idle => simpa [execEvent] using hinv
        | awaitingReady => simpa [execEvent] using hinv
        | looping toDo rem =>
            cases toDo with
            | nil => simpa [execEvent] using hinv
            | cons e rest =>
                have hfl : fl = true := hinv.mpr (by simp)
                subst hfl
                cases rest with
                | nil => simp [execEvent]
                | cons e2 r2 => simp [execEvent]
  · rintro ⟨st, fl, ph⟩ msg hph
    subst hph
    simp [execEvent]
  · intro Q oks h1 h2
    obtain ⟨a, t, rfl⟩ : ∃ a t, Q = a :: t := by
      cases Q with
      | nil => exact absurd rfl h2
      | cons a t => exact ⟨a, t, rfl⟩
    simp only [execTrace, execEvent]
    rw [execTrace_steps (a :: t) oks [] (a :: t) h1 (by simp)]
    simp

theorem C5_flush_serialized_witness :
    execEvent { stored := [entryA], flushing := true, phase := .awaitingReady }
          .call
        = ({ stored := [entryA], flushing := true
             phase := .awaitingReady }, [])
      ∧ flushInv (execEvent
          { stored := [], flushing := false, phase := .idle } .call).1
      ∧ (execEvent { stored := [], flushing := true, phase := .awaitingReady }
            (.resume (.error "boom"))).1.flushing = false
      ∧ execTrace { stored := [entryA], flushing := false, phase := .idle }
            (.call :: .call :: .resume (.ok true) :: [true].map .step)
          = ({ stored := setPendingQueue (flushFailures [entryA] [true])
               flushing := false, phase := .idle }, [entryA]) :=
  ⟨C5_flush_serialized.1 _ rfl,
   C5_flush_serialized.2.1 _ _ (by simp [flushInv]),
   C5_flush_serialized.2.2.1 _ "boom" rfl,
   C5_flush_serialized.2.2.2 [entryA] [true] rfl (by decide)⟩

theorem writeEntry_not_ready (env : WriteEnv) (st : LocalState)
    (e : SaveEntry) (h : env.ensureReady = .ok false) :
    writeEntry env st e
      = .ok ({ st with pending := pushPending st.pending e },
          { ok := false, reason := "firebase_unready", queued := true }) := by
  unfold writeEntry
  rw [h]
  rfl

theorem writeEntry_no_db (env : WriteEnv) (st : LocalState) (e : SaveEntry)
    (h : env.ensureReady = .ok true) (hdb : st.dbSet = false) :
    writeEntry env st e
      = .ok ({ st with pending := pushPending st.pending e },
          { ok := false, reason := "firebase_unready", queued := true }) := by
  unfold writeEntry
  rw [h, hdb]
  rfl

theorem writeEntry_failed (env : WriteEnv) (st : LocalState) (e : SaveEntry)
    (msg : String) (h : env.ensureReady = .ok true) (hdb : st.dbSet = true)
    (hw : env.remoteWrite e = .error msg)
    (hon : ¬ env.navigatorOnLine = some false) :
    writeEntry env st e
      = .ok ({ st with pending := pushPending st.pending e },
          { ok := false, reason := "write_failed", queued := true }) := by
  unfold writeEntry
  rw [h, hdb, hw, if_neg hon]
  rfl

theorem writeEntry_offline (env : WriteEnv) (st : LocalState) (e : SaveEntry)
    (msg : String) (h : env.ensureReady = .ok true) (hdb : st.dbSet = true)
    (hw : env.remoteWrite e = .error msg)
    (hon : env.navigatorOnLine = some false) :
    writeEntry env st e
      = .ok ({ st with pending := pushPending st.pending e },
          { ok := false, reason := "offline", queued := true }) := by
  unfold writeEntry
  rw [h, hdb, hw, if_pos hon]
  rfl

theorem writeEntry_success (env : WriteEnv) (st : LocalState) (e : SaveEntry)
    (h : env.ensureReady = .ok true) (hdb : st.dbSet = true)
    (hw : env.remoteWrite e = .ok ()) :
    writeEntry env st e
      = .ok (st, { ok := true, reason := "ok", queued := false }) := by
  unfold writeEntry
  rw [h, hdb, hw]
  rfl

theorem saveNowDetailed_run (env : WriteEnv) (st : LocalState)
    (src : Option String) (p : Payload) (hi : st.inited = true)
    (he : st.enabled = true) (hgp : st.hasGetPayload = true)
    (hpay : env.getPayload = .ok p) :
    saveNowDetailed env st src
      = match writeEntry env st
          { source := src.getD "manual", clientUpdatedAt := env.now
            payload := deepClonePure p } with
        | .error msg => .error msg
        | .ok r => .ok (r.1, r.2, r.2.ok) := by
  unfold saveNowDetailed
  rw [hi, he, hgp, hpay]
  rfl

/-- C6: a write attempt whose session is not ready (or whose handle is
missing) queues the entry with reason `firebase_unready`; a throwing remote
write queues the entry with reason `offline` when the network signal
reports offline and `write_failed` otherwise, each with `queued := true`; a
successful write reports ok and immediately invokes a drain of the pending
store; and for the scenario entry with inspection date 2025-03-14 and
driver Sato, a throwing remote write leaves exactly that entry in the
pending store while `saveNowDetailed` reports `write_failed` (and `saveNow`
reduces that result to its ok Boolean, false). -/
theorem C6_write_outcomes :
    (∀ (env : WriteEnv) (st : LocalState) (e : SaveEntry),
        env.ensureReady = .ok false →
        writeEntry env st e
          = .ok ({ st with pending := pushPending st.pending e },
              { ok := false, reason := "firebase_unready", queued := true }))
      ∧ (∀ (env : WriteEnv) (st : LocalState) (e : SaveEntry) (msg : String),
          env.ensureReady = .ok true → st.dbSet = true →
          env.remoteWrite e = .error msg →
          ¬ env.navigatorOnLine = some false →
          writeEntry env st e
            = .ok ({ st with pending := pushPending st.pending e },
                { ok := false, reason := "write_failed", queued := true }))
      ∧ (∀ (env : WriteEnv) (st : LocalState) (e : SaveEntry) (msg : String),
          env.ensureReady = .ok true → st.dbSet = true →
          env.remoteWrite e = .error msg →
          env.navigatorOnLine = some false →
          writeEntry env st e
            = .ok ({ st with pending := pushPending st.pending e },
                { ok := false, reason := "offline", queued := true }))
      ∧ (∀ (env : WriteEnv) (st : LocalState) (src : Option String)
            (p : Payload),
          st.inited = true → st.enabled = true → st.hasGetPayload = true →
          env.getPayload = .ok p → env.ensureReady = .ok true →
          st.dbSet = true →
          env.remoteWrite
              { source := src.getD "manual", clientUpdatedAt := env.now
                payload := deepClonePure p } = .ok () →
          saveNowDetailed env st src
            = .ok (st, { ok := true, reason := "ok", queued := false }, true))
      ∧ saveNowDetailed envScenario stReady (some "input")
          = .ok ({ stReady with pending := [sampleEntry] },
              { ok := false, reason := "write_failed", queued := true }, false)
      ∧ saveNow envScenario stReady (some "input")
          = .ok ({ stReady with pending := [sampleEntry] }, false, false) := by
  refine ⟨writeEntry_not_ready, writeEntry_failed, writeEntry_offline,
    ?_, rfl, rfl⟩
  intro env st src p hi he hgp hpay hready hdb hw
  rw [saveNowDetailed_run env st src p hi he hgp hpay,
    writeEntry_success env st _ hready hdb hw]

theorem C6_write_outcomes_witness :
    writeEntry { envScenario with ensureReady := .ok false } stReady
        sampleEntry
        = .ok ({ stReady with pending := [sampleEntry] },
            { ok := false, reason := "firebase_unready", queued := true })
      ∧ writeEntry envScenario stReady sampleEntry
        = .ok ({ stReady with pending := [sampleEntry] },
            { ok := false, reason := "write_failed", queued := true })
      ∧ writeEntry
          { envScenario with navigatorOnLine := some false } stReady
          sampleEntry
        = .ok ({ stReady with pending := [sampleEntry] },
            { ok := false, reason := "offline", queued := true })
      ∧ saveNowDetailed
          { envScenario with remoteWrite := fun _ => .ok () } stReady
          (some "input")
        = .ok (stReady, { ok := true, reason := "ok", queued := false },
            true) :=
  ⟨C6_write_outcomes.1 { envScenario with ensureReady := .ok false } stReady
      sampleEntry rfl,
   C6_write_outcomes.2.1 envScenario stReady sampleEntry "network boom"
      rfl rfl rfl (by decide),
   C6_write_outcomes.2.2.1 { envScenario with navigatorOnLine := some false }
      stReady sampleEntry "network boom" rfl rfl rfl rfl,
   C6_write_outcomes.2.2.2.1 { envScenario with remoteWrite := fun _ => .ok () }
      stReady (some "input") samplePayload rfl rfl rfl rfl rfl rfl rfl⟩

/-- C7 counterexample: with a session bootstrap that throws (SDK load
failure) or a payload callback that throws, the public `saveNowDetailed`
rejects instead of returning a status, at the concrete active state. -/
theorem C7_counterexample :
    saveNowDetailed envBootThrow stReady (some "manual")
        = .error "Failed to load Firebase SDK"
      ∧ saveNowDetailed envPayloadThrow stReady (some "manual")
        = .error "payload callback threw" :=
  ⟨rfl, rfl⟩

/-- C7 amended: exceptions of the remote write itself never cross the
public boundary (writeEntry and saveNowDetailed return a status whatever
the remote write does), provided the session bootstrap resolves and the
payload callback returns; a thrown bootstrap or payload callback does
escape, as the counterexample shows. -/
theorem C7_no_throw_amended :
    (∀ (env : WriteEnv) (st : LocalState) (e : SaveEntry) (b : Bool),
        env.ensureReady = .ok b → ∃ out, writeEntry env st e = .ok out)
      ∧ (∀ (env : WriteEnv) (st : LocalState) (src : Option String) (b : Bool)
            (p : Payload),
          env.ensureReady = .ok b → env.getPayload = .ok p →
          ∃ out, saveNowDetailed env st src = .ok out) := by
  have hw : ∀ (env : WriteEnv) (st : LocalState) (e : SaveEntry) (b : Bool),
      env.ensureReady = .ok b → ∃ out, writeEntry env st e = .ok out := by
    intro env st e b h
    unfold writeEntry
    rw [h]
    cases b
    · exact ⟨_, rfl⟩
    · cases hdb : st.dbSet
      · exact ⟨_, rfl⟩
      · cases hrw : env.remoteWrite e with
        | error msg =>
            by_cases hon : env.navigatorOnLine = some false
            · rw [if_pos hon]; exact ⟨_, rfl⟩
            · rw [if_neg hon]; exact ⟨_, rfl⟩
        | ok u => exact ⟨_, rfl⟩
  refine ⟨hw, ?_⟩
  intro env st src b p h hp
  cases hi : st.inited
  · refine ⟨(st, { ok := false, reason := "disabled", queued := false },
      false), ?_⟩
    unfold saveNowDetailed
    rw [hi]
    rfl
  · cases he : st.enabled
    · refine ⟨(st, { ok := false, reason := "disabled", queued := false },
        false), ?_⟩
      unfold saveNowDetailed
      rw [hi, he]
      rfl
    · cases hgp : st.hasGetPayload
      · refine ⟨(st,
          { ok := false, reason := "payload_missing", queued := false },
          false), ?_⟩
        unfold saveNowDetailed
        rw [hi, he, hgp]
        rfl
      · obtain ⟨out, hout⟩ := hw env st
          { source := src.getD "manual", clientUpdatedAt := env.now
            payload := deepClonePure p } b h
        refine ⟨(out.1, out.2, out.2.ok), ?_⟩
        rw [saveNowDetailed_run env st src p hi he hgp hp, hout]

theorem C7_no_throw_amended_witness :
    (∃ out, writeEntry envScenario stReady sampleEntry = .ok out)
      ∧ ∃ out, saveNowDetailed envScenario stReady (some "input")
          = .ok out :=
  ⟨C7_no_throw_amended.1 envScenario stReady sampleEntry true rfl,
   C7_no_throw_amended.2 envScenario stReady (some "input") true
     samplePayload rfl rfl⟩

theorem debounceFires_coalesce :
    ∀ (times : List Nat) (hne : times ≠ []),
      List.Chain' (fun a b => b < a + scheduleDelayMs) times →
      debounceFires scheduleDelayMs times
        = [times.getLast hne + scheduleDelayMs] := by
  intro times
  induction times with
  | nil => intro hne; exact absurd rfl hne
  | cons t rest ih =>
      intro hne hchain
      cases rest with
      | nil => simp [debounceFires]
      | cons t2 r2 =>
          rw [List.chain'_cons] at hchain
          rw [show debounceFires scheduleDelayMs (t :: t2 :: r2)
              = if t2 < t + scheduleDelayMs
                then debounceFires scheduleDelayMs (t2 :: r2)
                else (t + scheduleDelayMs)
                  :: debounceFires scheduleDelayMs (t2 :: r2) from rfl]
          rw [if_pos hchain.1, ih (by simp) hchain.2]
          simp [List.getLast_cons]

/-- C8: debounced saves coalesce: over a trace of `schedule` calls each of
which occurs before the previously armed 700 ms timer fires, exactly one
write attempt happens, at the last call time plus the debounce delay, and
it carries the payload read from the payload callback at that firing time,
not at the times of the earlier calls. -/
theorem C8_debounce_coalesce (payloadAt : Nat → Payload)
    (times : List Nat) (hne : times ≠ [])
    (hchain : List.Chain' (fun a b => b < a + scheduleDelayMs) times) :
    debounceFires scheduleDelayMs times
        = [times.getLast hne + scheduleDelayMs]
      ∧ debounceWrites payloadAt times
        = [(times.getLast hne + scheduleDelayMs,
            payloadAt (times.getLast hne + scheduleDelayMs))] := by
  refine ⟨debounceFires_coalesce times hne hchain, ?_⟩
  unfold debounceWrites
  rw [debounceFires_coalesce times hne hchain]
  rfl

theorem C8_debounce_coalesce_witness :
    debounceFires scheduleDelayMs [0, 100, 200, 300, 400] = [1100]
      ∧ debounceWrites (fun _ => samplePayload) [0, 100, 200, 300, 400]
        = [(1100, samplePayload)] :=
  C8_debounce_coalesce (fun _ => samplePayload) [0, 100, 200, 300, 400]
    (by decide) (by norm_num [List.chain'_cons, scheduleDelayMs])

theorem valAbove_mono {n m : Nat} (h : n ≤ m) :
    ∀ {v : JVal}, valAbove m v → valAbove n v := by
  intro v
  cases v with
  | str s => intro; trivial
  | ref a => intro ha; exact le_trans h ha

theorem objAbove_mono {n m : Nat} (h : n ≤ m) {o : JObj}
    (ho : objAbove m o) : objAbove n o := by
  intro p hp
  exact valAbove_mono h (ho p hp)

theorem fromObj_cons (n : Nat) (k : String) (v rest : JTree) :
    fromObj n (.cons k v rest)
      = ((fromObj (fromVal n v).1 rest).1,
         (fromVal n v).2.1 ++ (fromObj (fromVal n v).1 rest).2.1,
         (k, (fromVal n v).2.2) :: (fromObj (fromVal n v).1 rest).2.2) := by
  cases v with
  | str s => rfl
  | nil => rfl
  | cons k2 v2 r2 => rfl

theorem from_spec : ∀ (t : JTree) (n : Nat),
    (n ≤ (fromVal n t).1
      ∧ heapIn n (fromVal n t).1 (fromVal n t).2.1
      ∧ valAbove n (fromVal n t).2.2
      ∧ List.Pairwise (fun p q => p.1 < q.1) (fromVal n t).2.1)
    ∧ (n ≤ (fromObj n t).1
      ∧ heapIn n (fromObj n t).1 (fromObj n t).2.1
      ∧ objAbove n (fromObj n t).2.2
      ∧ List.Pairwise (fun p q => p.1 < q.1) (fromObj n t).2.1) := by
  intro t
  induction t with
  | str s =>
      intro n
      refine ⟨⟨le_refl n, ?_, trivial, ?_⟩, ⟨le_refl n, ?_, ?_, ?_⟩⟩
      · intro q hq
        simp [fromVal] at hq
      · simp [fromVal]
      · intro q hq
        simp [fromObj] at hq
      · intro p hp
        simp [fromObj] at hp
      · simp [fromObj]
  | nil =>
      intro n
      refine ⟨⟨Nat.le_succ n, ?_, le_refl n, ?_⟩,
        ⟨le_refl n, ?_, ?_, ?_⟩⟩
      · intro q hq
        simp [fromVal, fromObj] at hq
        subst hq
        exact ⟨le_refl n, Nat.lt_succ_self n, fun p hp => by simp at hp⟩
      · simp [fromVal, fromObj]
      · intro q hq
        simp [fromObj] at hq
      · intro p hp
        simp [fromObj] at hp
      · simp [fromObj]
  | cons k v rest ihv ihrest =>
      intro n
      obtain ⟨hv1, hv2, hv3, hv4⟩ := (ihv n).1
      obtain ⟨hr1, hr2, hr3, hr4⟩ := (ihrest (fromVal n v).1).2
      have hobj : n ≤ (fromObj n (JTree.cons k v rest)).1
          ∧ heapIn n (fromObj n (JTree.cons k v rest)).1
              (fromObj n (JTree.cons k v rest)).2.1
          ∧ objAbove n (fromObj n (JTree.cons k v rest)).2.2
          ∧ List.Pairwise (fun p q => p.1 < q.1)
              (fromObj n (JTree.cons k v rest)).2.1 := by
        rw [fromObj_cons]
        refine ⟨le_trans hv1 hr1, ?_, ?_, ?_⟩
        · intro q hq
          rcases List.mem_append.mp hq with h1 | h2
          · obtain ⟨a1, a2, a3⟩ := hv2 q h1
            exact ⟨a1, lt_of_lt_of_le a2 hr1, a3⟩
          · obtain ⟨a1, a2, a3⟩ := hr2 q h2
            exact ⟨le_trans hv1 a1, a2, objAbove_mono hv1 a3⟩
        · intro p hp
          rcases List.mem_cons.mp hp with h1 | h2
          · subst h1
            exact hv3
          · exact valAbove_mono hv1 (hr3 p h2)
        · rw [List.pairwise_append]
          refine ⟨hv4, hr4, ?_⟩
          intro p hp q hq
          exact lt_of_lt_of_le (hv2 p hp).2.1 (hr2 q hq).1
      refine ⟨?_, hobj⟩
      obtain ⟨ho1, ho2, ho3, ho4⟩ := hobj
      refine ⟨le_trans ho1 (Nat.le_succ _), ?_, ho1, ?_⟩
      · intro q hq
        rcases List.mem_append.mp hq with h1 | h2
        · obtain ⟨a1, a2, a3⟩ := ho2 q h1
          exact ⟨a1, Nat.lt_succ_of_lt a2, a3⟩
        · simp at h2
          subst h2
          exact ⟨ho1, Nat.lt_succ_self _, ho3⟩
      · rw [show (fromVal n (JTree.cons k v rest)).2.1
            = (fromObj n (JTree.cons k v rest)).2.1
              ++ [((fromObj n (JTree.cons k v rest)).1,
                   (fromObj n (JTree.cons k v rest)).2.2)] from rfl]
        rw [List.pairwise_append]
        refine ⟨ho4, List.pairwise_singleton _ _, ?_⟩
        intro p hp q hq
        simp at hq
        subst hq
        exact (ho2 p hp).2.1

theorem lookupH_pairwise_mem :
    ∀ (hp : Heap), List.Pairwise (fun p q => p.1 < q.1) hp →
      ∀ (a : Nat) (o : JObj), (a, o) ∈ hp → lookupH hp a = some o := by
  intro hp
  induction hp with
  | nil =>
      intro _ a o hmem
      simp at hmem
  | cons q rest ih =>
      intro hpw a o hmem
      obtain ⟨b, u⟩ := q
      rw [List.pairwise_cons] at hpw
      rcases List.mem_cons.mp hmem with h1 | h2
      · injection h1 with e1 e2
        subst e1
        subst e2
        simp [lookupH]
      · have hb : b < a := hpw.1 (a, o) h2
        have hne : ¬ a = b := by omega
        simp only [lookupH, if_neg hne]
        exact ih hpw.2 a o h2

theorem lookupH_append_right :
    ∀ (h1 hp : Heap) (n a : Nat), (∀ q ∈ h1, q.1 < n) → n ≤ a →
      lookupH (h1 ++ hp) a = lookupH hp a := by
  intro h1
  induction h1 with
  | nil =>
      intro hp n a _ _
      rfl
  | cons q rest ih =>
      intro hp n a hlt hna
      obtain ⟨b, u⟩ := q
      have hb : b < n := hlt (b, u) (List.mem_cons_self _ _)
      have hne : ¬ a = b := by omega
      simp only [List.cons_append, lookupH, if_neg hne]
      exact ih hp n a (fun q hq => hlt q (List.mem_cons_of_mem _ hq)) hna

theorem lookupH_mem :
    ∀ (hp : Heap) (a : Nat) (o : JObj), lookupH hp a = some o →
      (a, o) ∈ hp := by
  intro hp
  induction hp with
  | nil =>
      intro a o h
      simp [lookupH] at h
  | cons q rest ih =>
      intro a o h
      obtain ⟨b, u⟩ := q
      by_cases hab : a = b
      · subst hab
        simp only [lookupH, if_pos rfl] at h
        injection h with h
        subst h
        exact List.mem_cons_self _ _
      · simp only [lookupH, if_neg hab] at h
        exact List.mem_cons_of_mem _ (ih a o h)

theorem freshAddr_gt : ∀ (h : Heap), ∀ q ∈ h, q.1 < freshAddr h := by
  have key : ∀ (h : Heap) (acc : Nat),
      acc ≤ h.foldl (fun m p => max m (p.1 + 1)) acc
        ∧ ∀ q ∈ h, q.1 < h.foldl (fun m p => max m (p.1 + 1)) acc := by
    intro h
    induction h with
    | nil =>
        intro acc
        exact ⟨le_refl _, by intro q hq; simp at hq⟩
    | cons p rest ih =>
        intro acc
        simp only [List.foldl_cons]
        obtain ⟨ih1, ih2⟩ := ih (max acc (p.1 + 1))
        refine ⟨le_trans (le_max_left _ _) ih1, ?_⟩
        intro q hq
        rcases List.mem_cons.mp hq with h1 | h2
        · subst h1
          exact lt_of_lt_of_le (lt_of_lt_of_le (Nat.lt_succ_self _)
            (le_max_right _ _)) ih1
        · exact ih2 q h2
  intro h q hq
  exact (key h 0).2 q hq

theorem setField_length :
    ∀ (hp : Heap) (a : Nat) (k : String) (w : JVal),
      (setField hp a k w).length = hp.length := by
  intro hp a k w
  induction hp with
  | nil => rfl
  | cons q rest ih =>
      obtain ⟨c, u⟩ := q
      by_cases hc : c = a
      · simp [setField, hc]
      · simp [setField, hc, ih]

theorem lookupH_setField_ne :
    ∀ (hp : Heap) (a : Nat) (k : String) (w : JVal) (b : Nat), b ≠ a →
      lookupH (setField hp a k w) b = lookupH hp b := by
  intro hp a k w
  induction hp with
  | nil =>
      intro b _
      rfl
  | cons q rest ih =>
      intro b hba
      obtain ⟨c, u⟩ := q
      by_cases hc : c = a
      · subst hc
        simp only [setField, if_pos rfl, lookupH]
        rw [if_neg hba, if_neg hba]
      · simp only [setField, if_neg hc, lookupH]
        by_cases hb : b = c
        · rw [if_pos hb, if_pos hb]
        · rw [if_neg hb, if_neg hb]
          exact ih b hba

theorem need_le_heap : ∀ (t : JTree) (n : Nat),
    needV t ≤ (fromVal n t).2.1.length
      ∧ needS t ≤ (fromObj n t).2.1.length := by
  intro t
  induction t with
  | str s =>
      intro n
      simp [needV, needS, fromVal, fromObj]
  | nil =>
      intro n
      simp [needV, needS, fromVal, fromObj]
  | cons k v rest ihv ihrest =>
      intro n
      have h1 := (ihv n).1
      have h2 := (ihrest (fromVal n v).1).2
      have hobj : needS (JTree.cons k v rest)
          ≤ (fromObj n (JTree.cons k v rest)).2.1.length := by
        rw [fromObj_cons]
        show max (needV v) (needS rest)
          ≤ ((fromVal n v).2.1 ++ (fromObj (fromVal n v).1 rest).2.1).length
        rw [List.length_append]
        exact max_le (le_trans h1 (Nat.le_add_right _ _))
          (le_trans h2 (Nat.le_add_left _ _))
      constructor
      · show 1 + needS (JTree.cons k v rest)
          ≤ ((fromObj n (JTree.cons k v rest)).2.1
              ++ [((fromObj n (JTree.cons k v rest)).1,
                   (fromObj n (JTree.cons k v rest)).2.2)]).length
        rw [List.length_append]
        simp only [List.length_cons, List.length_nil]
        omega
      · exact hobj

theorem toSpineAux_congr {f g : JVal → Option JTree} :
    ∀ (o : JObj), (∀ p ∈ o, f p.2 = g p.2) →
      toSpineAux f o = toSpineAux g o := by
  intro o
  induction o with
  | nil =>
      intro _
      rfl
  | cons p rest ih =>
      intro h
      obtain ⟨k, v⟩ := p
      have h1 : f v = g v := h (k, v) (List.mem_cons_self _ _)
      simp only [toSpineAux]
      rw [h1, ih (fun q hq => h q (List.mem_cons_of_mem _ hq))]

theorem toSpineAux_wf {f : JVal → Option JTree}
    (hf : ∀ v t, f v = some t → wfTree t = true) :
    ∀ (o : JObj) (t : JTree), toSpineAux f o = some t →
      wfTree t = true ∧ isSpine t = true := by
  intro o
  induction o with
  | nil =>
      intro t ht
      simp only [toSpineAux] at ht
      injection ht with ht
      subst ht
      exact ⟨rfl, rfl⟩
  | cons p rest ih =>
      intro t ht
      obtain ⟨k, v⟩ := p
      simp only [toSpineAux] at ht
      split at ht
      · exact Option.noConfusion ht
      next tv hfv =>
        split at ht
        · exact Option.noConfusion ht
        next tr hts =>
          injection ht with ht
          subst ht
          obtain ⟨h1, h2⟩ := ih tr hts
          refine ⟨?_, rfl⟩
          simp [wfTree, hf v tv hfv, h1, h2]

theorem toTree_wf : ∀ (fuel : Nat) (h : Heap) (v : JVal) (t : JTree),
    toTree h fuel v = some t → wfTree t = true := by
  intro fuel
  induction fuel with
  | zero =>
      intro h v t ht
      cases v with
      | str s =>
          simp only [toTree] at ht
          injection ht with ht
          subst ht
          rfl
      | ref a =>
          simp only [toTree] at ht
          exact Option.noConfusion ht
  | succ f ih =>
      intro h v t ht
      cases v with
      | str s =>
          simp only [toTree] at ht
          injection ht with ht
          subst ht
          rfl
      | ref a =>
          simp only [toTree] at ht
          split at ht
          · exact Option.noConfusion ht
          next o hlk =>
            exact (toSpineAux_wf (fun v2 t2 hv2 => ih h v2 t2 hv2) o t ht).1

theorem readback : ∀ (t : JTree),
    (∀ (n : Nat) (H : Heap) (fuel : Nat), wfTree t = true →
        (∀ a o, (a, o) ∈ (fromVal n t).2.1 → lookupH H a = some o) →
        needV t ≤ fuel →
        toTree H fuel (fromVal n t).2.2 = some t)
    ∧ (∀ (n : Nat) (H : Heap) (fuel : Nat), wfTree t = true →
        isSpine t = true →
        (∀ a o, (a, o) ∈ (fromObj n t).2.1 → lookupH H a = some o) →
        needS t ≤ fuel →
        toSpineAux (toTree H fuel) (fromObj n t).2.2 = some t) := by
  intro t
  induction t with
  | str s =>
      constructor
      · intro n H fuel _ _ _
        cases fuel with
        | zero => rfl
        | succ f => rfl
      · intro n H fuel _ hsp _ _
        simp [isSpine] at hsp
  | nil =>
      constructor
      · intro n H fuel _ hlk hfuel
        cases fuel with
        | zero => simp [needV] at hfuel
        | succ f =>
            have h0 : lookupH H n = some [] :=
              hlk n [] (by simp [fromVal, fromObj])
            calc toTree H (f + 1) (fromVal n JTree.nil).2.2
                = (match lookupH H n with
                   | none => none
                   | some o => toSpineAux (toTree H f) o) := rfl
              _ = toSpineAux (toTree H f) [] := by rw [h0]
              _ = some JTree.nil := rfl
      · intro n H fuel _ _ _ _
        rfl
  | cons k v rest ihv ihrest =>
      have hspine : ∀ (n : Nat) (H : Heap) (fuel : Nat),
          wfTree (JTree.cons k v rest) = true →
          (∀ a o, (a, o) ∈ (fromObj n (JTree.cons k v rest)).2.1 →
            lookupH H a = some o) →
          needS (JTree.cons k v rest) ≤ fuel →
          toSpineAux (toTree H fuel) (fromObj n (JTree.cons k v rest)).2.2
            = some (JTree.cons k v rest) := by
        intro n H fuel hwf hlk hfuel
        have hwf2 : wfTree v = true ∧ wfTree rest = true
            ∧ isSpine rest = true := by
          simp only [wfTree, Bool.and_eq_true] at hwf
          tauto
        have hlk2 : ∀ a o, (a, o) ∈ (fromVal n v).2.1
            ++ (fromObj (fromVal n v).1 rest).2.1 → lookupH H a = some o := by
          rw [← show (fromObj n (JTree.cons k v rest)).2.1
              = (fromVal n v).2.1 ++ (fromObj (fromVal n v).1 rest).2.1 by
            rw [fromObj_cons]]
          exact hlk
        have h1 : toTree H fuel (fromVal n v).2.2 = some v := by
          refine ihv.1 n H fuel hwf2.1 ?_ ?_
          · intro a o hm
            exact hlk2 a o (List.mem_append.mpr (Or.inl hm))
          · calc needV v ≤ max (needV v) (needS rest) := le_max_left _ _
              _ = needS (JTree.cons k v rest) := rfl
              _ ≤ fuel := hfuel
        have h2 : toSpineAux (toTree H fuel)
            (fromObj (fromVal n v).1 rest).2.2 = some rest := by
          refine ihrest.2 (fromVal n v).1 H fuel hwf2.2.1 hwf2.2.2 ?_ ?_
          · intro a o hm
            exact hlk2 a o (List.mem_append.mpr (Or.inr hm))
          · calc needS rest ≤ max (needV v) (needS rest) := le_max_right _ _
              _ = needS (JTree.cons k v rest) := rfl
              _ ≤ fuel := hfuel
        rw [fromObj_cons]
        show toSpineAux (toTree H fuel)
            ((k, (fromVal n v).2.2) :: (fromObj (fromVal n v).1 rest).2.2)
          = some (JTree.cons k v rest)
        simp only [toSpineAux]
        rw [h1, h2]
      constructor
      · intro n H fuel hwf hlk hfuel
        cases fuel with
        | zero => simp [needV] at hfuel
        | succ f =>
            have hns : needS (JTree.cons k v rest) ≤ f := by
              have heq : needV (JTree.cons k v rest)
                  = 1 + needS (JTree.cons k v rest) := rfl
              omega
            have hroot : lookupH H (fromObj n (JTree.cons k v rest)).1
                = some (fromObj n (JTree.cons k v rest)).2.2 := by
              refine hlk _ _ ?_
              exact List.mem_append.mpr (Or.inr (List.mem_singleton.mpr rfl))
            have hsub : ∀ a o,
                (a, o) ∈ (fromObj n (JTree.cons k v rest)).2.1 →
                lookupH H a = some o := by
              intro a o hm
              exact hlk a o (List.mem_append.mpr (Or.inl hm))
            calc toTree H (f + 1) (fromVal n (JTree.cons k v rest)).2.2
                = (match lookupH H (fromObj n (JTree.cons k v rest)).1 with
                   | none => none
                   | some o => toSpineAux (toTree H f) o) := rfl
              _ = toSpineAux (toTree H f)
                    (fromObj n (JTree.cons k v rest)).2.2 := by rw [hroot]
              _ = some (JTree.cons k v rest) := hspine n H f hwf hsub hns
      · intro n H fuel hwf _ hlk hfuel
        exact hspine n H fuel hwf hlk hfuel

theorem toTree_agree : ∀ (fuel : Nat) (n : Nat) (H1 H2 : Heap),
    (∀ b, n ≤ b → lookupH H1 b = lookupH H2 b) →
    (∀ b o, n ≤ b → lookupH H1 b = some o → objAbove n o) →
    ∀ v, valAbove n v → toTree H1 fuel v = toTree H2 fuel v := by
  intro fuel
  induction fuel with
  | zero =>
      intro n H1 H2 _ _ v _
      cases v with
      | str s => rfl
      | ref a => rfl
  | succ f ih =>
      intro n H1 H2 hag hob v hv
      cases v with
      | str s => rfl
      | ref a =>
          have ha : n ≤ a := hv
          simp only [toTree]
          rw [hag a ha]
          cases hlk : lookupH H2 a with
          | none => rfl
          | some o =>
              have h1 : lookupH H1 a = some o := by rw [hag a ha, hlk]
              have ho : objAbove n o := hob a o ha h1
              show toSpineAux (toTree H1 f) o = toSpineAux (toTree H2 f) o
              exact toSpineAux_congr o
                (fun p hp => ih n H1 H2 hag hob p.2 (ho p hp))

/-- C9 counterexample: for a circular payload `JSON.stringify` throws, so
`deepClone` returns the payload itself (an alias into the caller heap, the
heap unchanged), and a later mutation of the caller object changes the
queued value observed through the clone root. -/
theorem C9_clone_counterexample :
    (deepClone circHeap (JVal.ref 0)).2 = JVal.ref 0
      ∧ (deepClone circHeap (JVal.ref 0)).1 = circHeap
      ∧ readField
          (setField (deepClone circHeap (JVal.ref 0)).1 0 "self"
            (JVal.str "changed"))
          (deepClone circHeap (JVal.ref 0)).2 "self"
        ≠ readField (deepClone circHeap (JVal.ref 0)).1
            (deepClone circHeap (JVal.ref 0)).2 "self" := by
  refine ⟨rfl, rfl, ?_⟩
  decide

/-- C9 amended: for every payload whose JSON serialization succeeds,
`deepClone` is a defensive deep copy: the clone serializes to the same
document as the original, and it still does after any mutation of a
pre-existing object of the caller heap (the clone only references freshly
allocated addresses). When serialization throws the clone is the payload
itself, and mutation is observable through it (see the counterexample). -/
theorem C9_deep_clone_amended (h : Heap) (v : JVal) (t : JTree)
    (hs : jsonStringify h v = some t) (a : Nat) (k : String) (w : JVal)
    (ha : a < freshAddr h) :
    jsonStringify (deepClone h v).1 (deepClone h v).2 = some t
      ∧ jsonStringify (setField (deepClone h v).1 a k w) (deepClone h v).2
        = some t := by
  have hdc : deepClone h v
      = (h ++ (fromVal (freshAddr h) t).2.1,
         (fromVal (freshAddr h) t).2.2) := by
    unfold deepClone
    rw [hs]
  obtain ⟨hv1, hv2, hv3, hv4⟩ := (from_spec t (freshAddr h)).1
  have hwf : wfTree t = true := toTree_wf (h.length + 1) h v t hs
  have hlow : ∀ q ∈ h, q.1 < freshAddr h := freshAddr_gt h
  have hmem : ∀ (a0 : Nat) (o0 : JObj),
      (a0, o0) ∈ (fromVal (freshAddr h) t).2.1 →
      lookupH (h ++ (fromVal (freshAddr h) t).2.1) a0 = some o0 := by
    intro a0 o0 hm
    have hge : freshAddr h ≤ a0 := (hv2 (a0, o0) hm).1
    rw [lookupH_append_right h _ (freshAddr h) a0 hlow hge]
    exact lookupH_pairwise_mem _ hv4 a0 o0 hm
  have hfuel : needV t
      ≤ (h ++ (fromVal (freshAddr h) t).2.1).length + 1 := by
    have := (need_le_heap t (freshAddr h)).1
    rw [List.length_append]
    omega
  have hread : toTree (h ++ (fromVal (freshAddr h) t).2.1)
      ((h ++ (fromVal (freshAddr h) t).2.1).length + 1)
      (fromVal (freshAddr h) t).2.2 = some t :=
    (readback t).1 (freshAddr h) _ _ hwf hmem hfuel
  constructor
  · rw [hdc]
    exact hread
  · rw [hdc]
    show jsonStringify
        (setField (h ++ (fromVal (freshAddr h) t).2.1) a k w)
        (fromVal (freshAddr h) t).2.2 = some t
    unfold jsonStringify
    rw [setField_length]
    have hagree : toTree
        (setField (h ++ (fromVal (freshAddr h) t).2.1) a k w)
        ((h ++ (fromVal (freshAddr h) t).2.1).length + 1)
        (fromVal (freshAddr h) t).2.2
        = toTree (h ++ (fromVal (freshAddr h) t).2.1)
            ((h ++ (fromVal (freshAddr h) t).2.1).length + 1)
            (fromVal (freshAddr h) t).2.2 := by
      refine toTree_agree _ (freshAddr h) _ _ ?_ ?_ _ hv3
      · intro b hb
        exact lookupH_setField_ne _ a k w b (by omega)
      · intro b o hb hlkb
        rw [lookupH_setField_ne _ a k w b (by omega)] at hlkb
        rw [lookupH_append_right h _ (freshAddr h) b hlow hb] at hlkb
        exact (hv2 (b, o) (lookupH_mem _ b o hlkb)).2.2
    rw [hagree]
    exact hread

theorem C9_deep_clone_amended_witness :
    jsonStringify (deepClone acyclicHeap (JVal.ref 0)).1
        (deepClone acyclicHeap (JVal.ref 0)).2
      = some (JTree.cons "a" (JTree.str "x") JTree.nil)
      ∧ jsonStringify
          (setField (deepClone acyclicHeap (JVal.ref 0)).1 0 "a"
            (JVal.str "mutated"))
          (deepClone acyclicHeap (JVal.ref 0)).2
        = some (JTree.cons "a" (JTree.str "x") JTree.nil) :=
  C9_deep_clone_amended acyclicHeap (JVal.ref 0)
    (JTree.cons "a" (JTree.str "x") JTree.nil) (by rfl) 0 "a"
    (JVal.str "mutated") (by decide)

end CloudSync
